import Mathlib

/-!
Shallow embedding of the `ml-foundations-notebook` repository: the toy
tables of the preprocessing notebooks and the semantics of the library
calls each cell makes, with theorems checking the specification's claims.

Numeric columns are embedded as lists of rationals (the notebooks' data
are small integer literals, and every formula involved — min-max scaling,
median/IQR robust scaling, group means, frequency counts — is exact
rational arithmetic).  The cyclical sine/cosine encoding is embedded over
the reals.
-/

namespace MLNotebooks

/-! ### numeric_scaling.ipynb -/

/-- The literal 5×2 array from the `MinMaxScaler` / `StandardScaler` cells:
`np.array([[10,1000],[15,1500],[20,2000],[25,2500],[30,3000]])`,
one pair per row. -/
def scalingData : List (ℚ × ℚ) :=
  [(10, 1000), (15, 1500), (20, 2000), (25, 2500), (30, 3000)]

/-- The literal 5×2 array from the `RobustScaler` cell (outlier in the
first column): `np.array([[10,1000],[15,1500],[20,2000],[25,2500],[1000,3000]])`. -/
def robustData : List (ℚ × ℚ) :=
  [(10, 1000), (15, 1500), (20, 2000), (25, 2500), (1000, 3000)]

/-- Minimum of a column (0 on the empty column, which never occurs in the cells). -/
def listMin : List ℚ → ℚ
  | [] => 0
  | x :: t => t.foldl min x

/-- Maximum of a column. -/
def listMax : List ℚ → ℚ
  | [] => 0
  | x :: t => t.foldl max x

/-- Semantics of `MinMaxScaler().fit_transform` on one column: the formula
`X' = (X - X_min) / (X_max - X_min)` stated in the notebook's markdown. -/
def minMaxScaleCol (xs : List ℚ) : List ℚ :=
  xs.map (fun x => (x - listMin xs) / (listMax xs - listMin xs))

/-- The `MinMaxScaler` cell: `scaler.fit_transform(data)`, scaling each of
the two columns of `scalingData` independently. -/
def minMaxCell : List (ℚ × ℚ) :=
  (minMaxScaleCol (scalingData.map Prod.fst)).zip
    (minMaxScaleCol (scalingData.map Prod.snd))

/-- Linearly interpolated quantile (numpy's default interpolation, used by
`RobustScaler`): for the sorted column `s` of length `n`, the quantile at
`q` sits at position `q*(n-1)`, interpolating between the two neighbouring
order statistics. -/
def quantile (xs : List ℚ) (q : ℚ) : ℚ :=
  let s := List.insertionSort (· ≤ ·) xs
  let pos := q * ((s.length : ℚ) - 1)
  let i := (⌊pos⌋).toNat
  let lo := s.getD i 0
  let hi := s.getD (i + 1) lo
  lo + (pos - (i : ℚ)) * (hi - lo)

/-- Semantics of `RobustScaler().fit_transform` on one column: the formula
`X' = (X - median(X)) / (Q3(X) - Q1(X))` stated in the notebook's markdown. -/
def robustScaleCol (xs : List ℚ) : List ℚ :=
  xs.map (fun x =>
    (x - quantile xs (1/2)) / (quantile xs (3/4) - quantile xs (1/4)))

/-- The `RobustScaler` cell: `scaler.fit_transform(data)` over `robustData`. -/
def robustCell : List (ℚ × ℚ) :=
  (robustScaleCol (robustData.map Prod.fst)).zip
    (robustScaleCol (robustData.map Prod.snd))

/-! ### categorical_encoding.ipynb -/

/-- The literal column `df['color']` of the one-hot encoding cell. -/
def colorColumn : List String := ["red", "green", "blue", "green", "red"]

/-- The distinct categories of a column in sorted order: the column labels
produced by `pd.get_dummies`. -/
def dummyCols (xs : List String) : List String :=
  List.insertionSort (· ≤ ·) xs.dedup

/-- Semantics of `pd.get_dummies(df['color'])`: one Boolean row per input
value, one column per distinct category, entry true iff the row's value is
the column's category. -/
def getDummies (xs : List String) : List (List Bool) :=
  xs.map (fun x => (dummyCols xs).map (fun c => x == c))

/-- One column of the one-hot output, by its category label. -/
def dummyColumn (xs : List String) (c : String) : List Bool :=
  xs.map (fun x => x == c)

/-- The literal dataframe of the target-encoding cell:
`{'category': ['A','B','A','C','B'], 'target': [10,20,15,10,25]}`, one
(category, target) pair per row. -/
def targetDf : List (String × ℚ) :=
  [("A", 10), ("B", 20), ("A", 15), ("C", 10), ("B", 25)]

/-- One entry of `df.groupby('category')['target'].mean()`: the arithmetic
mean of the target values of the rows with the given category. -/
def groupMean (df : List (String × ℚ)) (c : String) : ℚ :=
  ((df.filter (fun p => p.1 == c)).map Prod.snd).sum /
    ((df.filter (fun p => p.1 == c)).length : ℚ)

/-- The encoded column `df['category'].map(target_means)` read extensionally:
each row's category replaced by its group mean. -/
def targetEncode (df : List (String × ℚ)) : List ℚ :=
  df.map (fun p => groupMean df p.1)

/-- Mean of a numeric column, `Series.mean()`. -/
def listMean (xs : List ℚ) : ℚ := xs.sum / (xs.length : ℚ)

/-- `df.groupby('category')['target'].mean()` as a series: one
(key, group mean) pair per distinct category, keys in sorted order. -/
def groupbyMean (df : List (String × ℚ)) : List (String × ℚ) :=
  (List.insertionSort (· ≤ ·) (df.map Prod.fst).dedup).map
    (fun c => (c, groupMean df c))

/-- `Series.map(m)`: look each value up in the mapping series, missing
(NaN) when the value has no entry. -/
def seriesMap (xs : List String) (m : List (String × ℚ)) : List (Option ℚ) :=
  xs.map (fun x => m.lookup x)

/-- The target-encoding cell's new column `df['category_encoded']`:
`df['category'].map(target_means)` with
`target_means = df.groupby('category')['target'].mean()`. -/
def targetEncodedColumn (df : List (String × ℚ)) : List (Option ℚ) :=
  seriesMap (df.map Prod.fst) (groupbyMean df)

/-- `df['category'].value_counts()`: one (value, count) pair per distinct
value, sorted by count descending. -/
def valueCounts (xs : List String) : List (String × ℕ) :=
  List.insertionSort (fun a b => b.2 ≤ a.2)
    (xs.dedup.map (fun c => (c, xs.count c)))

/-- The frequency-encoding cell's new column `df['category_freq']`:
`df['category'].map(freq)` with `freq = df['category'].value_counts()`. -/
def freqEncodedColumn (df : List (String × ℚ)) : List (Option ℕ) :=
  (df.map Prod.fst).map (fun x => (valueCounts (df.map Prod.fst)).lookup x)

/-- Modelled from the spec: the single external-library frequency-encoding
routine — replace each value by its number of occurrences in the column. -/
def freqEncode (xs : List String) : List ℕ :=
  xs.map (fun x => xs.count x)

/-! ### missing_values.ipynb -/

/-- The literal `Age` column: `[25, 30, np.nan, 22, 28, np.nan, 35]`. -/
def mvAge : List (Option ℚ) :=
  [some 25, some 30, none, some 22, some 28, none, some 35]

/-- The literal `Gender` column:
`['Male', 'Female', 'Female', np.nan, 'Male', 'Female', np.nan]`. -/
def mvGender : List (Option String) :=
  [some "Male", some "Female", some "Female", none, some "Male",
    some "Female", none]

/-- The literal `Income` column:
`[50000, 60000, 55000, 52000, np.nan, 58000, 60000]`. -/
def mvIncome : List (Option ℚ) :=
  [some 50000, some 60000, some 55000, some 52000, none, some 58000,
    some 60000]

/-- `Series.mean()`: mean of the observed values, missing (NaN) when no
value is observed. -/
def seriesMeanOpt (xs : List (Option ℚ)) : Option ℚ :=
  if (xs.filterMap id).length = 0 then none
  else some ((xs.filterMap id).sum / ((xs.filterMap id).length : ℚ))

/-- `Series.mode()` on a string column: the most frequent observed values,
in sorted order. -/
def seriesMode (xs : List (Option String)) : List String :=
  let vs := xs.filterMap id
  let u := List.insertionSort (· ≤ ·) vs.dedup
  u.filter (fun c => vs.count c == (u.map (fun d => vs.count d)).foldr max 0)

/-- `Series.fillna(v)`: replace each missing entry by `v`, keep the rest. -/
def fillna {α : Type} (xs : List (Option α)) (v : α) : List α :=
  xs.map (fun x => x.getD v)

/-- The mean/mode imputation cell:
`df['Age'].fillna(df['Age'].mean())` and
`df['Gender'].fillna(df['Gender'].mode()[0])`.  The cell fails (`none`)
exactly when the mean is undefined or the `[0]` access into the mode list
raises `IndexError`. -/
def fillCell (age : List (Option ℚ)) (gender : List (Option String)) :
    Option (List ℚ × List String) := do
  let m ← seriesMeanOpt age
  let g ← (seriesMode gender).head?
  some (fillna age m, fillna gender g)

/-- Squared nan-euclidean distance between two rows (sklearn
`nan_euclidean_distances`, squared — the monotone image used for neighbour
ranking): the sum of squared differences over mutually observed
coordinates, scaled by total/observed coordinate count; `none` when no
coordinate is mutually observed. -/
def nanSqDist (r s : List (Option ℚ)) : Option ℚ :=
  if ((r.zip s).filterMap (fun p => match p.1, p.2 with
      | some a, some b => some (a - b)
      | _, _ => none)).length = 0 then none
  else some (((r.length : ℚ) /
      (((r.zip s).filterMap (fun p => match p.1, p.2 with
        | some a, some b => some (a - b)
        | _, _ => none)).length : ℚ)) *
    (((r.zip s).filterMap (fun p => match p.1, p.2 with
        | some a, some b => some (a - b)
        | _, _ => none)).map (fun d => d ^ 2)).sum)

/-- Candidate donors for entry `(i, j)` of the matrix: every other row with
column `j` observed and a defined distance to row `i`, as
(distance, column value) pairs sorted nearest first. -/
def knnDonors (m : List (List (Option ℚ))) (i j : ℕ) : List (ℚ × ℚ) :=
  List.insertionSort (fun a b => a.1 ≤ b.1)
    ((List.range m.length).filterMap (fun k =>
      if k = i then none
      else match (m.getD k []).getD j none, nanSqDist (m.getD i []) (m.getD k []) with
        | some v, some d => some (d, v)
        | _, _ => none))

/-- The fill value for a missing entry: the mean of the `k` nearest donors'
column values (sklearn `KNNImputer` with uniform weights); when no donor
exists, the column mean of the observed values. -/
def knnFill (k : ℕ) (m : List (List (Option ℚ))) (i j : ℕ) : ℚ :=
  if ((knnDonors m i j).take k).length = 0 then
    ((m.filterMap (fun r => r.getD j none)).sum /
      ((m.filterMap (fun r => r.getD j none)).length : ℚ))
  else (((knnDonors m i j).take k).map Prod.snd).sum /
    (((knnDonors m i j).take k).length : ℚ)

/-- `KNNImputer(n_neighbors=k).fit_transform`: observed entries pass
through unchanged; missing entries are replaced by `knnFill`. -/
def knnImpute (k : ℕ) (m : List (List (Option ℚ))) : List (List ℚ) :=
  (List.range m.length).map (fun i =>
    (List.range (m.getD i []).length).map (fun j =>
      match (m.getD i []).getD j none with
      | some a => a
      | none => knnFill k m i j))

/-! ### date_time_processing.ipynb -/

/-- The divisor 24 in the cyclical encoding
`np.sin(2 * np.pi * df['hour'] / 24)`. -/
def hourPeriod : ℝ := 24

/-- The literal `df['hour']` column extracted from the three timestamps
`14:30`, `09:15`, `20:45`. -/
def hourColumn : List ℤ := [14, 9, 20]

/-- `df['hour_sin']` for hour `h`: `np.sin(2 * np.pi * h / 24)`. -/
noncomputable def hourSin (h : ℤ) : ℝ :=
  Real.sin (2 * Real.pi * (h : ℝ) / hourPeriod)

/-- `df['hour_cos']` for hour `h`: `np.cos(2 * np.pi * h / 24)`. -/
noncomputable def hourCos (h : ℤ) : ℝ :=
  Real.cos (2 * Real.pi * (h : ℝ) / hourPeriod)

/-! ### Notebook state shared between cells -/

/-- The bindings a cell of `categorical_encoding.ipynb` can read from
previously executed cells: `data` (from the label-encoding cell) and `df`
with its `category`, `target` and `category_encoded` columns (as left by
the target-encoding cell). -/
structure CatEnv where
  data : List String
  df : List (String × ℚ × Option ℚ)

/-- The target-encoding cell as a function of the prior notebook state: it
defines its own literal `df` and appends the encoded column, reading
nothing from the environment. -/
def targetCell (_e : CatEnv) : List (String × ℚ × Option ℚ) :=
  targetDf.map (fun p => (p.1, p.2, (groupbyMean targetDf).lookup p.1))

/-- The frequency-encoding cell as a function of the prior notebook state:
it reads the `df` binding left by the previous cell and appends the
`category_freq` column. -/
def freqCell (e : CatEnv) : List (String × ℚ × Option ℚ × Option ℕ) :=
  e.df.map (fun r => (r.1, r.2.1, r.2.2,
    (valueCounts (e.df.map Prod.fst)).lookup r.1))

/-- The bindings the imputation cells of `missing_values.ipynb` read: the
columns of the `df` binding left by the detection cell. -/
structure MvEnv where
  age : List (Option ℚ)
  gender : List (Option String)
  income : List (Option ℚ)

/-- The mean/mode imputation cell as a function of the prior notebook
state: it reads `df['Age']` and `df['Gender']` from the environment. -/
def mvFillCell (e : MvEnv) : Option (List ℚ × List String) :=
  fillCell e.age e.gender

/-! ### Stratified train/test split (data splitting notebook) -/

/-- The iris target vector `load_iris().target`: 150 labels, the first 50
of class 0, the next 50 of class 1, the last 50 of class 2. -/
def irisLabels : List ℕ :=
  List.replicate 50 0 ++ List.replicate 50 1 ++ List.replicate 50 2

/-- The per-class test allotment of
`train_test_split(X, y, test_size=0.2, stratify=y)` on iris: 30 test
samples apportioned as 10 per 50-element class. -/
def testQuota : ℕ := 10

/-- The indices of class `c` in the order visited by the shuffle `σ`. -/
def classIdx (σ : List ℕ) (c : ℕ) : List ℕ :=
  σ.filter (fun i => irisLabels.getD i 3 == c)

/-- The test indices of the stratified split: the RNG is abstracted as the
shuffled order `σ` of the sample indices; the first `testQuota` indices
of each class go to the test set. -/
def stratTestIdx (σ : List ℕ) : List ℕ :=
  (classIdx σ 0).take testQuota ++ (classIdx σ 1).take testQuota ++
    (classIdx σ 2).take testQuota

/-- The training indices: the remainder of each class. -/
def stratTrainIdx (σ : List ℕ) : List ℕ :=
  (classIdx σ 0).drop testQuota ++ (classIdx σ 1).drop testQuota ++
    (classIdx σ 2).drop testQuota

/-! ### Theorems -/

theorem getD_map_lt {α β : Type} (f : α → β) (xs : List α) (i : ℕ)
    (hi : i < xs.length) (d : β) (d' : α) :
    (xs.map f).getD i d = f (xs.getD i d') := by
  rw [List.getD_eq_getElem?_getD, List.getD_eq_getElem?_getD,
    List.getElem?_map, List.getElem?_eq_getElem hi]
  rfl

/-- C3: Min-max scaling rescales each numeric column by
`X' = (X - X_min) / (X_max - X_min)`: every output entry of a column with
`min < max` equals that expression, and on the literal input
`[[10,1000],[15,1500],[20,2000],[25,2500],[30,3000]]` the result is
exactly `[[0,0],[1/4,1/4],[1/2,1/2],[3/4,3/4],[1,1]]`. -/
theorem minmax_scaling_formula :
    (∀ (xs : List ℚ), listMin xs < listMax xs →
      ∀ i, i < xs.length →
        (minMaxScaleCol xs).getD i 0 =
          (xs.getD i 0 - listMin xs) / (listMax xs - listMin xs)) ∧
    minMaxCell = [(0, 0), (1/4, 1/4), (1/2, 1/2), (3/4, 3/4), (1, 1)] := by
  constructor
  · intro xs _ i hi
    exact getD_map_lt _ xs i hi 0 0
  · norm_num [minMaxCell, minMaxScaleCol, scalingData, listMin, listMax, min_def, max_def]

/-- Witness for the hypothesised part of `minmax_scaling_formula`, at the
first column of the notebook's literal data. -/
theorem minmax_scaling_formula_witness :
    listMin (scalingData.map Prod.fst) < listMax (scalingData.map Prod.fst) ∧
    (minMaxScaleCol (scalingData.map Prod.fst)).getD 1 0 =
      ((scalingData.map Prod.fst).getD 1 0 - listMin (scalingData.map Prod.fst)) /
        (listMax (scalingData.map Prod.fst) - listMin (scalingData.map Prod.fst)) :=
  ⟨by decide, minmax_scaling_formula.1 (scalingData.map Prod.fst) (by decide) 1 (by decide)⟩

/-- Shared evaluation of the three quartiles of the outlier column. -/
theorem robust_quartiles :
    quantile (robustData.map Prod.fst) (1/2) = 20 ∧
    quantile (robustData.map Prod.fst) (1/4) = 15 ∧
    quantile (robustData.map Prod.fst) (3/4) = 25 := by
  refine ⟨?_, ?_, ?_⟩ <;>
  · norm_num [quantile, robustData, List.insertionSort, List.orderedInsert]
    try simp only [show Int.toNat (2 : ℤ) = 2 from rfl, show Int.toNat (3 : ℤ) = 3 from rfl,
      show Int.toNat (1 : ℤ) = 1 from rfl]
    try norm_num

/-- C4: Robust scaling is median/IQR based: every output entry of a
column with nonzero interquartile range equals
`(X - median(X)) / (Q3(X) - Q1(X))` with linearly interpolated quartiles;
on the literal column `[10,15,20,25,1000]` (median 20, Q1 15, Q3 25) the
outputs are exactly `[-1, -1/2, 0, 1/2, 98]`. -/
theorem robust_scaling_formula :
    (∀ (xs : List ℚ), quantile xs (3/4) - quantile xs (1/4) ≠ 0 →
      ∀ i, i < xs.length →
        (robustScaleCol xs).getD i 0 =
          (xs.getD i 0 - quantile xs (1/2)) /
            (quantile xs (3/4) - quantile xs (1/4))) ∧
    quantile (robustData.map Prod.fst) (1/2) = 20 ∧
    quantile (robustData.map Prod.fst) (1/4) = 15 ∧
    quantile (robustData.map Prod.fst) (3/4) = 25 ∧
    robustScaleCol (robustData.map Prod.fst) = [-1, -1/2, 0, 1/2, 98] := by
  refine ⟨fun xs _ i hi => getD_map_lt _ xs i hi 0 0,
    robust_quartiles.1, robust_quartiles.2.1, robust_quartiles.2.2, ?_⟩
  norm_num [robustScaleCol, quantile, robustData, List.insertionSort, List.orderedInsert]
  simp only [show Int.toNat (2 : ℤ) = 2 from rfl, show Int.toNat (3 : ℤ) = 3 from rfl,
    show Int.toNat (1 : ℤ) = 1 from rfl]
  norm_num

/-- Witness for the hypothesised part of `robust_scaling_formula`, at the
outlier column of the notebook's literal data. -/
theorem robust_scaling_formula_witness :
    quantile (robustData.map Prod.fst) (3/4) -
        quantile (robustData.map Prod.fst) (1/4) ≠ 0 ∧
    (robustScaleCol (robustData.map Prod.fst)).getD 4 0 =
      ((robustData.map Prod.fst).getD 4 0 - quantile (robustData.map Prod.fst) (1/2)) /
        (quantile (robustData.map Prod.fst) (3/4) - quantile (robustData.map Prod.fst) (1/4)) := by
  have hne : quantile (robustData.map Prod.fst) (3/4) -
      quantile (robustData.map Prod.fst) (1/4) ≠ 0 := by
    rw [robust_quartiles.2.2, robust_quartiles.2.1]; norm_num
  exact ⟨hne, robust_scaling_formula.1 (robustData.map Prod.fst) hne 4 (by decide)⟩

theorem dummyCols_nodup (xs : List String) : (dummyCols xs).Nodup :=
  xs.nodup_dedup.perm (List.perm_insertionSort _ _).symm

theorem mem_dummyCols {xs : List String} {x : String} (hx : x ∈ xs) :
    x ∈ dummyCols xs :=
  ((List.perm_insertionSort _ _).mem_iff).mpr (List.mem_dedup.mpr hx)

theorem colorCols_eval : dummyCols colorColumn = ["blue", "green", "red"] := by
  have hdedup : colorColumn.dedup = ["blue", "green", "red"] := by decide
  rw [dummyCols, hdedup]
  simp [List.insertionSort, List.orderedInsert]
  decide

theorem getDummies_row (xs : List String) (i : ℕ) (hi : i < xs.length) :
    (getDummies xs).getD i [] =
      (dummyCols xs).map (fun c => xs.getD i "" == c) :=
  getD_map_lt _ xs i hi [] ""

/-- C8: In the one-hot encoding output every entry is true exactly when
its column is labelled with its row's category, every row contains exactly
one true entry, every column sum equals the number of occurrences of the
column's category, and on the literal `color` column the output matrix is
the one the notebook prints. -/
theorem one_hot_invariant :
    (∀ (xs : List String) (i j : ℕ), i < xs.length → j < (dummyCols xs).length →
      (((getDummies xs).getD i []).getD j false = true ↔
        (dummyCols xs).getD j "" = xs.getD i "")) ∧
    (∀ (xs : List String) (i : ℕ), i < xs.length →
      ((getDummies xs).getD i []).count true = 1) ∧
    (∀ (xs : List String) (j : ℕ), j < (dummyCols xs).length →
      (getDummies xs).map (fun r => r.getD j false) =
        dummyColumn xs ((dummyCols xs).getD j "")) ∧
    (∀ (xs : List String) (c : String),
      (dummyColumn xs c).count true = xs.count c) ∧
    dummyCols colorColumn = ["blue", "green", "red"] ∧
    getDummies colorColumn =
      [[false, false, true], [false, true, false], [true, false, false],
        [false, true, false], [false, false, true]] := by
  refine ⟨?_, ?_, ?_, ?_, colorCols_eval, ?_⟩
  · intro xs i j hi hj
    rw [getDummies_row xs i hi, getD_map_lt _ _ j hj false "", beq_iff_eq]
    exact eq_comm
  · intro xs i hi
    rw [getDummies_row xs i hi, List.count_eq_countP, List.countP_map]
    have : List.countP ((fun x => x == true) ∘ fun c => xs.getD i "" == c)
        (dummyCols xs) = List.count (xs.getD i "") (dummyCols xs) := by
      rw [List.count_eq_countP]
      refine List.countP_congr (fun c _ => ?_)
      simp only [Function.comp]
      simp only [beq_iff_eq]
      exact eq_comm
    rw [this]
    refine List.count_eq_one_of_mem (dummyCols_nodup xs) (mem_dummyCols ?_)
    rw [List.getD_eq_getElem?_getD, List.getElem?_eq_getElem hi]
    exact List.getElem_mem hi
  · intro xs j hj
    unfold getDummies dummyColumn
    rw [List.map_map]
    refine List.map_congr_left (fun x _ => ?_)
    exact getD_map_lt _ _ j hj false ""
  · intro xs c
    rw [dummyColumn, List.count_eq_countP, List.countP_map, List.count_eq_countP]
    refine List.countP_congr (fun x _ => ?_)
    simp [Function.comp]
  · unfold getDummies
    rw [colorCols_eval]
    simp [colorColumn]

/-- Witness for the hypothesised parts of `one_hot_invariant`: row 0 /
column 2 of the literal `color` column. -/
theorem one_hot_invariant_witness :
    (0 < colorColumn.length ∧ 2 < (dummyCols colorColumn).length) ∧
    (((getDummies colorColumn).getD 0 []).getD 2 false = true ↔
      (dummyCols colorColumn).getD 2 "" = colorColumn.getD 0 "") ∧
    ((getDummies colorColumn).getD 0 []).count true = 1 ∧
    (getDummies colorColumn).map (fun r => r.getD 2 false) =
      dummyColumn colorColumn ((dummyCols colorColumn).getD 2 "") := by
  have h0 : 0 < colorColumn.length := by decide
  have h2 : 2 < (dummyCols colorColumn).length := by
    rw [colorCols_eval]; decide
  exact ⟨⟨h0, h2⟩, one_hot_invariant.1 colorColumn 0 2 h0 h2,
    one_hot_invariant.2.1 colorColumn 0 h0,
    one_hot_invariant.2.2.1 colorColumn 2 h2⟩

theorem lookup_of_assoc {β : Type} (g : String → β) (m : List (String × β))
    (hm : ∀ p ∈ m, p.2 = g p.1) (x : String) (hx : x ∈ m.map Prod.fst) :
    m.lookup x = some (g x) := by
  induction m with
  | nil => cases hx
  | cons p t ih =>
    by_cases h : x = p.1
    · have hp : p.2 = g p.1 := hm p (List.mem_cons_self p t)
      subst h
      simp [List.lookup, hp]
    · have hx' : x ∈ t.map Prod.fst := by
        rcases List.mem_cons.mp hx with h1 | h1
        · exact absurd h1 h
        · exact h1
      have ih' := ih (fun q hq => hm q (List.mem_cons_of_mem p hq)) hx'
      simpa [List.lookup, beq_eq_false_iff_ne.mpr h] using ih'

theorem lookup_map_key {β : Type} (f : String → β) (keys : List String)
    (x : String) (hx : x ∈ keys) :
    (keys.map (fun c => (c, f c))).lookup x = some (f x) := by
  refine lookup_of_assoc f _ ?_ x ?_
  · intro p hp
    rcases List.mem_map.mp hp with ⟨c, _, rfl⟩
    rfl
  · rw [List.map_map]
    simpa using hx

theorem sum_map_const_rat (l : List (String × ℚ)) (a : ℚ) :
    (l.map (fun _ => a)).sum = (l.length : ℚ) * a := by
  induction l with
  | nil => simp
  | cons p t ih =>
    simp only [List.map_cons, List.sum_cons, ih, List.length_cons]
    push_cast
    ring

theorem targetEncode_sum_aux :
    ∀ (n : ℕ) (df : List (String × ℚ)), df.length ≤ n →
      (targetEncode df).sum = (df.map Prod.snd).sum := by
  intro n
  induction n with
  | zero =>
    intro df h
    rw [List.length_eq_zero.mp (Nat.le_zero.mp h)]
    rfl
  | succ n ih =>
    intro df hlen
    match df with
    | [] => rfl
    | p :: t =>
      have hq : (fun r : String × ℚ => r.1 == p.1) p = true := by simp
      have hperm : ((p :: t).filter (fun r => r.1 == p.1) ++
          (p :: t).filter (fun r => !(r.1 == p.1))).Perm (p :: t) :=
        List.filter_append_perm _ (p :: t)
      have hsum1 : (targetEncode (p :: t)).sum =
          (((p :: t).filter (fun r => r.1 == p.1)).map
              (fun r => groupMean (p :: t) r.1)).sum +
            (((p :: t).filter (fun r => !(r.1 == p.1))).map
              (fun r => groupMean (p :: t) r.1)).sum := by
        rw [targetEncode, ← (hperm.map (fun r => groupMean (p :: t) r.1)).sum_eq,
          List.map_append, List.sum_append]
      have hpA : p ∈ (p :: t).filter (fun r => r.1 == p.1) :=
        List.mem_filter.mpr ⟨List.mem_cons_self p t, hq⟩
      have hAlen : (((p :: t).filter (fun r => r.1 == p.1)).length : ℚ) ≠ 0 := by
        have := List.length_pos.mpr (List.ne_nil_of_mem hpA)
        exact_mod_cast Nat.pos_iff_ne_zero.mp this
      have hAsum : (((p :: t).filter (fun r => r.1 == p.1)).map
            (fun r => groupMean (p :: t) r.1)).sum =
          (((p :: t).filter (fun r => r.1 == p.1)).map Prod.snd).sum := by
        have hcongr : ((p :: t).filter (fun r => r.1 == p.1)).map
              (fun r => groupMean (p :: t) r.1) =
            ((p :: t).filter (fun r => r.1 == p.1)).map
              (fun _ => groupMean (p :: t) p.1) := by
          refine List.map_congr_left (fun r hr => ?_)
          have := (List.mem_filter.mp hr).2
          rw [beq_iff_eq] at this
          rw [this]
        rw [hcongr, sum_map_const_rat, groupMean, mul_comm,
          div_mul_cancel₀ _ hAlen]
      have hBsub : ∀ r ∈ (p :: t).filter (fun x => !(x.1 == p.1)),
          groupMean (p :: t) r.1 = groupMean ((p :: t).filter (fun x => !(x.1 == p.1))) r.1 := by
        intro r hr
        have hrne : ¬ (r.1 = p.1) := by
          have := (List.mem_filter.mp hr).2
          simpa using this
        have hfeq : ((p :: t).filter (fun x => !(x.1 == p.1))).filter
              (fun x => x.1 == r.1) = (p :: t).filter (fun x => x.1 == r.1) := by
          rw [List.filter_filter]
          refine List.filter_congr (fun x _ => ?_)
          by_cases hx : x.1 = r.1
          · simp [hx, hrne]
          · simp [hx]
        rw [groupMean, groupMean, hfeq]
      have hBlen : ((p :: t).filter (fun x => !(x.1 == p.1))).length ≤ n := by
        have hlens := hperm.length_eq
        rw [List.length_append] at hlens
        have hA1 : 1 ≤ ((p :: t).filter (fun r => r.1 == p.1)).length :=
          List.length_pos.mpr (List.ne_nil_of_mem hpA)
        have : (p :: t).length ≤ n + 1 := hlen
        omega
      have hBsum : (((p :: t).filter (fun x => !(x.1 == p.1))).map
            (fun r => groupMean (p :: t) r.1)).sum =
          (((p :: t).filter (fun x => !(x.1 == p.1))).map Prod.snd).sum := by
        rw [List.map_congr_left hBsub]
        exact ih _ hBlen
      have hsum2 : (((p :: t).filter (fun r => r.1 == p.1)).map Prod.snd).sum +
          (((p :: t).filter (fun x => !(x.1 == p.1))).map Prod.snd).sum =
          ((p :: t).map Prod.snd).sum := by
        rw [← List.sum_append, ← List.map_append]
        exact (hperm.map Prod.snd).sum_eq
      rw [hsum1, hAsum, hBsum, hsum2]

theorem targetEncode_sum (df : List (String × ℚ)) :
    (targetEncode df).sum = (df.map Prod.snd).sum :=
  targetEncode_sum_aux df.length df le_rfl

/-- C9: Target encoding preserves the overall target mean: for every
nonempty dataframe, the column obtained by replacing each category with the
mean of the target values of rows sharing that category has the same mean
as the target column itself; on the notebook's literal dataframe both
means are 16. -/
theorem target_encoding_preserves_mean :
    (∀ df : List (String × ℚ), df ≠ [] →
      listMean (targetEncode df) = listMean (df.map Prod.snd)) ∧
    listMean (targetEncode targetDf) = 16 ∧
    listMean (targetDf.map Prod.snd) = 16 := by
  have hmean : ∀ df : List (String × ℚ), df ≠ [] →
      listMean (targetEncode df) = listMean (df.map Prod.snd) := by
    intro df _
    rw [listMean, listMean, targetEncode_sum, targetEncode, List.length_map,
      List.length_map]
  refine ⟨hmean, ?_, ?_⟩
  · simp only [targetEncode, groupMean, targetDf, listMean]
    simp
    norm_num
  · norm_num [listMean, targetDf]

/-- Witness for `target_encoding_preserves_mean` at the notebook's literal
dataframe. -/
theorem target_encoding_preserves_mean_witness :
    targetDf ≠ [] ∧
    listMean (targetEncode targetDf) = listMean (targetDf.map Prod.snd) :=
  ⟨by decide, target_encoding_preserves_mean.1 targetDf (by decide)⟩

theorem valueCounts_mem {xs : List String} {p : String × ℕ}
    (hp : p ∈ valueCounts xs) : p.2 = xs.count p.1 := by
  have : p ∈ xs.dedup.map (fun c => (c, xs.count c)) :=
    (List.perm_insertionSort _ _).mem_iff.mp hp
  rcases List.mem_map.mp this with ⟨c, _, rfl⟩
  rfl

theorem valueCounts_keys {xs : List String} {x : String} (hx : x ∈ xs) :
    x ∈ (valueCounts xs).map Prod.fst := by
  have hperm : ((valueCounts xs).map Prod.fst).Perm
      ((xs.dedup.map (fun c => (c, xs.count c))).map Prod.fst) :=
    (List.perm_insertionSort _ _).map Prod.fst
  rw [hperm.mem_iff, List.map_map]
  simpa using List.mem_dedup.mpr hx

/-- C1: The two encoding cells that are compositions of generic pandas
primitives rather than a single named encoder — target encoding
(`groupby('category')['target'].mean()` followed by `map`) and frequency
encoding (`value_counts()` followed by `map`) — are extensionally equal to
the corresponding one-routine library encodings on every dataframe, and in
particular on the cells' literal input `targetDf`. -/
theorem cell_compositions_equal_library_routines :
    (∀ df : List (String × ℚ),
      targetEncodedColumn df = (targetEncode df).map some) ∧
    (∀ df : List (String × ℚ),
      freqEncodedColumn df = (freqEncode (df.map Prod.fst)).map some) ∧
    targetEncodedColumn targetDf =
      [some (25/2), some (45/2), some (25/2), some 10, some (45/2)] ∧
    freqEncodedColumn targetDf = [some 2, some 2, some 2, some 1, some 2] := by
  have htarget : ∀ df : List (String × ℚ),
      targetEncodedColumn df = (targetEncode df).map some := by
    intro df
    rw [targetEncodedColumn, seriesMap, groupbyMean, targetEncode]
    simp only [List.map_map]
    refine List.map_congr_left (fun p hp => ?_)
    refine lookup_map_key (groupMean df) _ p.1 ?_
    rw [(List.perm_insertionSort _ _).mem_iff, List.mem_dedup]
    exact List.mem_map.mpr ⟨p, hp, rfl⟩
  have hfreq : ∀ df : List (String × ℚ),
      freqEncodedColumn df = (freqEncode (df.map Prod.fst)).map some := by
    intro df
    rw [freqEncodedColumn, freqEncode]
    simp only [List.map_map]
    refine List.map_congr_left (fun p hp => ?_)
    show (valueCounts (df.map Prod.fst)).lookup p.1 =
      some ((df.map Prod.fst).count p.1)
    exact lookup_of_assoc (fun c => (df.map Prod.fst).count c)
      (valueCounts (df.map Prod.fst)) (fun q hq => valueCounts_mem hq) p.1
      (valueCounts_keys (List.mem_map.mpr ⟨p, hp, rfl⟩))
  refine ⟨htarget, hfreq, ?_, ?_⟩
  · rw [htarget targetDf]
    simp only [targetEncode, groupMean, targetDf]
    simp
    norm_num
  · rw [hfreq targetDf]
    decide

/-- Witness for the universally quantified parts of
`cell_compositions_equal_library_routines`, instantiated at the literal
dataframe (the parts are not hypothesised, but the instantiation grounds
them at the cell's input). -/
theorem cell_compositions_equal_library_routines_witness :
    targetEncodedColumn targetDf = (targetEncode targetDf).map some ∧
    freqEncodedColumn targetDf = (freqEncode (targetDf.map Prod.fst)).map some :=
  ⟨cell_compositions_equal_library_routines.1 targetDf,
    cell_compositions_equal_library_routines.2.1 targetDf⟩

theorem getD_range_map {β : Type} (f : ℕ → β) (n i : ℕ) (hi : i < n) (d : β) :
    ((List.range n).map f).getD i d = f i := by
  have hi' : i < (List.range n).length := by simpa using hi
  rw [getD_map_lt f (List.range n) i hi' d 0]
  congr 1
  rw [List.getD_eq_getElem?_getD, List.getElem?_eq_getElem hi']
  simp

/-- C10: Imputation only fills holes: `fillna`-based simple imputation
and KNN imputation leave every observed entry unchanged — only entries
that were missing before the operation are replaced. -/
theorem imputation_frame_property :
    (∀ (α : Type) (xs : List (Option α)) (v : α) (i : ℕ) (a : α),
      i < xs.length → xs.getD i none = some a →
      (fillna xs v).getD i v = a) ∧
    (∀ (k : ℕ) (m : List (List (Option ℚ))) (i j : ℕ) (a : ℚ),
      i < m.length → j < (m.getD i []).length →
      (m.getD i []).getD j none = some a →
      ((knnImpute k m).getD i []).getD j 0 = a) := by
  constructor
  · intro α xs v i a hi ha
    rw [fillna, getD_map_lt _ xs i hi v none, ha]
    rfl
  · intro k m i j a hi hj ha
    rw [knnImpute, getD_range_map _ m.length i hi [],
      getD_range_map _ (m.getD i []).length j hj 0, ha]

/-- Witness for `imputation_frame_property`: the first observed `Age`
entry survives mean imputation, and an observed entry of a small numeric
matrix survives KNN imputation. -/
theorem imputation_frame_property_witness :
    (0 < mvAge.length ∧ mvAge.getD 0 none = some 25 ∧
      (fillna mvAge 28).getD 0 28 = 25) ∧
    (0 < [[some (25:ℚ), some 50000], [none, some 60000]].length ∧
      (([[some (25:ℚ), some 50000], [none, some 60000]].getD 0 []).getD 1 none =
        some 50000) ∧
      ((knnImpute 3 [[some (25:ℚ), some 50000], [none, some 60000]]).getD 0 []).getD 1 0 =
        50000) := by
  refine ⟨⟨by decide, by decide, ?_⟩, ⟨by decide, by decide, ?_⟩⟩
  · exact imputation_frame_property.1 ℚ mvAge 28 0 25 (by decide) (by decide)
  · exact imputation_frame_property.2 3 _ 0 1 50000 (by decide) (by decide) (by decide)

theorem seriesMeanOpt_mvAge : seriesMeanOpt mvAge = some 28 := by
  norm_num [seriesMeanOpt, mvAge, List.filterMap_cons]

theorem seriesMode_mvGender : seriesMode mvGender = ["Female"] := by
  have h1 : (mvGender.filterMap id).dedup = ["Male", "Female"] := by decide
  simp only [seriesMode]
  rw [h1]
  have h2 : List.insertionSort (· ≤ ·) ["Male", "Female"] = ["Female", "Male"] := by
    simp [List.insertionSort, List.orderedInsert]
    decide
  rw [h2]
  decide

/-- C7: The repository's own glue code never fails on the literal
datasets: the `mode()[0]` access succeeds because the `Gender` column has
observed values (its mode is `Female`), the `Age` mean exists (it is 28),
so the whole mean/mode imputation cell evaluates to a value, and the
divisor 24 of the cyclical encoding is nonzero. -/
theorem glue_code_totality :
    fillCell mvAge mvGender =
      some (fillna mvAge 28, fillna mvGender "Female") ∧
    seriesMeanOpt mvAge = some 28 ∧
    (seriesMode mvGender).head? = some "Female" ∧
    hourPeriod ≠ 0 := by
  refine ⟨?_, seriesMeanOpt_mvAge, ?_, ?_⟩
  · simp [fillCell, seriesMeanOpt_mvAge, seriesMode_mvGender]
  · rw [seriesMode_mvGender]; rfl
  · norm_num [hourPeriod]

/-- The original independence claim is false: the frequency-encoding cell
reads the `df` binding left by the target-encoding cell, so its result
differs between a state where that cell ran and a fresh state. -/
theorem cell_independence_counterexample :
    freqCell ⟨[], targetCell ⟨[], []⟩⟩ ≠ freqCell ⟨[], []⟩ := by
  intro h
  have hlen := congrArg List.length h
  simp [freqCell, targetCell, targetDf] at hlen

/-- C2 (amended): The target-encoding cell is independent of the prior
notebook state, while the frequency-encoding and imputation cells depend
on it only through the dataframe binding they read: two runs from states
agreeing on that binding produce identical results. -/
theorem cell_state_dependence :
    (∀ e₁ e₂ : CatEnv, targetCell e₁ = targetCell e₂) ∧
    (∀ e₁ e₂ : CatEnv, e₁.df = e₂.df → freqCell e₁ = freqCell e₂) ∧
    (∀ e₁ e₂ : MvEnv, e₁.age = e₂.age → e₁.gender = e₂.gender →
      mvFillCell e₁ = mvFillCell e₂) := by
  refine ⟨fun _ _ => rfl, ?_, ?_⟩
  · intro e₁ e₂ h
    simp only [freqCell, h]
  · intro e₁ e₂ h1 h2
    simp only [mvFillCell, fillCell, h1, h2]

/-- Witness for `cell_state_dependence`: states differing only in
irrelevant bindings yield the same frequency-encoding and imputation
results. -/
theorem cell_state_dependence_witness :
    freqCell ⟨["a"], []⟩ = freqCell ⟨["b"], []⟩ ∧
    mvFillCell ⟨mvAge, mvGender, []⟩ = mvFillCell ⟨mvAge, mvGender, mvIncome⟩ :=
  ⟨cell_state_dependence.2.1 ⟨["a"], []⟩ ⟨["b"], []⟩ rfl,
    cell_state_dependence.2.2 ⟨mvAge, mvGender, []⟩ ⟨mvAge, mvGender, mvIncome⟩ rfl rfl⟩

/-- C6: Cyclical encoding maps each integer hour `h` to
`(sin(2πh/24), cos(2πh/24))` over the reals: the pair lies on the unit
circle, hours `h` and `h + 24` receive identical encodings, and distinct
hours in `0..23` receive distinct encodings. -/
theorem cyclical_hour_encoding :
    (∀ h : ℤ, hourSin h ^ 2 + hourCos h ^ 2 = 1) ∧
    (∀ h : ℤ, hourSin (h + 24) = hourSin h ∧ hourCos (h + 24) = hourCos h) ∧
    (∀ h₁ h₂ : ℤ, 0 ≤ h₁ → h₁ < 24 → 0 ≤ h₂ → h₂ < 24 →
      hourSin h₁ = hourSin h₂ → hourCos h₁ = hourCos h₂ → h₁ = h₂) := by
  refine ⟨fun h => Real.sin_sq_add_cos_sq _, ?_, ?_⟩
  · intro h
    have hangle : 2 * Real.pi * ((h : ℝ) + 24) / hourPeriod
        = 2 * Real.pi * (h : ℝ) / hourPeriod + 2 * Real.pi := by
      rw [hourPeriod]
      ring
    constructor
    · rw [hourSin, hourSin]
      push_cast
      rw [hangle, Real.sin_add_two_pi]
    · rw [hourCos, hourCos]
      push_cast
      rw [hangle, Real.cos_add_two_pi]
  · intro h₁ h₂ _ h1u _ h2u hs hc
    have hang : (↑(2 * Real.pi * (h₁ : ℝ) / hourPeriod) : Real.Angle)
        = ↑(2 * Real.pi * (h₂ : ℝ) / hourPeriod) :=
      Real.Angle.cos_sin_inj hc hs
    rw [Real.Angle.angle_eq_iff_two_pi_dvd_sub] at hang
    rcases hang with ⟨k, hk⟩
    rw [hourPeriod] at hk
    have h2pi : (2 * Real.pi) ≠ 0 := by positivity
    have hfac : 2 * Real.pi * (((h₁ : ℝ) - (h₂ : ℝ)) / 24 - k) = 0 := by
      have expand : 2 * Real.pi * (((h₁ : ℝ) - (h₂ : ℝ)) / 24 - k)
          = (2 * Real.pi * (h₁ : ℝ) / 24 - 2 * Real.pi * (h₂ : ℝ) / 24)
            - 2 * Real.pi * k := by ring
      rw [expand, hk]
      ring
    rcases mul_eq_zero.mp hfac with hbad | hgood
    · exact absurd hbad h2pi
    · have hdiff : (h₁ : ℝ) - h₂ = 24 * k := by
        have hsub := sub_eq_zero.mp hgood
        field_simp at hsub
        linarith
      have hz : h₁ - h₂ = 24 * k := by exact_mod_cast hdiff
      omega

/-- Witness for `cyclical_hour_encoding`: the notebook's hours 14 and 9
are distinct, agree one day apart, and lie on the unit circle. -/
theorem cyclical_hour_encoding_witness :
    hourSin 14 ^ 2 + hourCos 14 ^ 2 = 1 ∧
    hourSin (9 + 24) = hourSin 9 ∧
    ((0:ℤ) ≤ 14 ∧ (14:ℤ) < 24 ∧ hourSin 14 = hourSin 14 ∧ (14:ℤ) = 14) :=
  ⟨cyclical_hour_encoding.1 14, (cyclical_hour_encoding.2.1 9).1,
    by decide, by decide, rfl,
    cyclical_hour_encoding.2.2 14 14 (by decide) (by decide) (by decide)
      (by decide) rfl rfl⟩

theorem irisLabel_lt : ∀ i, i < 150 → irisLabels.getD i 3 < 3 := by decide

theorem classIdx_len (σ : List ℕ) (hσ : σ.Perm (List.range 150)) :
    (classIdx σ 0).length = 50 ∧ (classIdx σ 1).length = 50 ∧
      (classIdx σ 2).length = 50 := by
  refine ⟨?_, ?_, ?_⟩ <;>
    · rw [classIdx, ← List.countP_eq_length_filter, hσ.countP_eq]
      decide

theorem mem_classIdx {σ : List ℕ} {c i : ℕ} (h : i ∈ classIdx σ c) :
    irisLabels.getD i 3 = c := by
  have := (List.mem_filter.mp h).2
  simpa using this

theorem classIdx_nodup (σ : List ℕ) (hσ : σ.Perm (List.range 150)) (c : ℕ) :
    (classIdx σ c).Nodup :=
  (hσ.nodup_iff.mpr (List.nodup_range 150)).filter _

theorem classIdx_partition (σ : List ℕ) (hσ : σ.Perm (List.range 150)) :
    (classIdx σ 0 ++ (classIdx σ 1 ++ classIdx σ 2)).Perm σ := by
  have hf1 : classIdx σ 1 =
      (σ.filter (fun i => !(irisLabels.getD i 3 == 0))).filter
        (fun i => irisLabels.getD i 3 == 1) := by
    rw [List.filter_filter, classIdx]
    refine List.filter_congr (fun i _ => ?_)
    simp
    omega
  have hf2 : classIdx σ 2 =
      (σ.filter (fun i => !(irisLabels.getD i 3 == 0))).filter
        (fun i => !(irisLabels.getD i 3 == 1)) := by
    rw [List.filter_filter, classIdx]
    refine List.filter_congr (fun i hi => ?_)
    have hi150 : i < 150 := by
      have := hσ.mem_iff.mp hi
      simpa using this
    have hlt := irisLabel_lt i hi150
    revert hlt
    rw [List.getD_eq_getElem?_getD]
    generalize irisLabels[i]?.getD 3 = v
    intro hlt
    interval_cases v <;> decide
  have hsplit1 := List.filter_append_perm
    (fun i => irisLabels.getD i 3 == 1)
    (σ.filter (fun i => !(irisLabels.getD i 3 == 0)))
  rw [← hf1, ← hf2] at hsplit1
  have hsplit0 := List.filter_append_perm (fun i => irisLabels.getD i 3 == 0) σ
  exact (hsplit1.append_left (classIdx σ 0)).trans hsplit0

theorem countP_subset_self {σ : List ℕ} {c : ℕ} {l : List ℕ}
    (hl : l ⊆ classIdx σ c) :
    l.countP (fun i => irisLabels.getD i 3 == c) = l.length :=
  List.countP_eq_length.mpr (fun a ha => by rw [mem_classIdx (hl ha)]; simp)

theorem countP_subset_ne {σ : List ℕ} {c c' : ℕ} (hne : c ≠ c') {l : List ℕ}
    (hl : l ⊆ classIdx σ c) :
    l.countP (fun i => irisLabels.getD i 3 == c') = 0 :=
  List.countP_eq_zero.mpr (fun a ha => by
    rw [mem_classIdx (hl ha)]
    simp [hne])

/-- C5: The stratified split of the iris dataset (150 samples, 50 per
class) with `test_size=0.2` and `stratify=y`: whatever order `σ` the RNG
shuffles the sample indices into, train and test indices are disjoint,
together they are a permutation of all 150 indices, the test set has
exactly 30 samples, and each class contributes exactly 10 samples to the
test set and 40 to the training set. -/
theorem stratified_split_properties (σ : List ℕ) (hσ : σ.Perm (List.range 150)) :
    (stratTestIdx σ).length = 30 ∧
    (stratTrainIdx σ).length = 120 ∧
    (stratTestIdx σ).Disjoint (stratTrainIdx σ) ∧
    (stratTestIdx σ ++ stratTrainIdx σ).Perm (List.range 150) ∧
    (∀ c, c < 3 →
      (stratTestIdx σ).countP (fun i => irisLabels.getD i 3 == c) = 10 ∧
      (stratTrainIdx σ).countP (fun i => irisLabels.getD i 3 == c) = 40) := by
  obtain ⟨hl0, hl1, hl2⟩ := classIdx_len σ hσ
  have htake : ∀ c, (classIdx σ c).length = 50 →
      ((classIdx σ c).take testQuota).length = 10 := by
    intro c hc
    rw [List.length_take, hc]
    rfl
  have hdrop : ∀ c, (classIdx σ c).length = 50 →
      ((classIdx σ c).drop testQuota).length = 40 := by
    intro c hc
    rw [List.length_drop, hc]
    rfl
  refine ⟨?_, ?_, ?_, ?_, ?_⟩
  · rw [stratTestIdx, List.length_append, List.length_append,
      htake 0 hl0, htake 1 hl1, htake 2 hl2]
  · rw [stratTrainIdx, List.length_append, List.length_append,
      hdrop 0 hl0, hdrop 1 hl1, hdrop 2 hl2]
  · -- disjointness
    intro a ha hb
    have hmem : ∀ {c : ℕ}, a ∈ (classIdx σ c).take testQuota →
        irisLabels.getD a 3 = c :=
      fun h => mem_classIdx (List.take_subset _ _ h)
    have hmem' : ∀ {c : ℕ}, a ∈ (classIdx σ c).drop testQuota →
        irisLabels.getD a 3 = c :=
      fun h => mem_classIdx (List.drop_subset _ _ h)
    rw [stratTestIdx, List.mem_append, List.mem_append] at ha
    rw [stratTrainIdx, List.mem_append, List.mem_append] at hb
    have hdisj : ∀ c, a ∈ (classIdx σ c).take testQuota →
        a ∈ (classIdx σ c).drop testQuota → False := by
      intro c h1 h2
      exact List.disjoint_take_drop (classIdx_nodup σ hσ c) le_rfl h1 h2
    rcases ha with (h0 | h1) | h2 <;> rcases hb with (g0 | g1) | g2
    · exact hdisj 0 h0 g0
    · exact absurd (hmem h0 ▸ hmem' g1) (by decide)
    · exact absurd (hmem h0 ▸ hmem' g2) (by decide)
    · exact absurd (hmem h1 ▸ hmem' g0) (by decide)
    · exact hdisj 1 h1 g1
    · exact absurd (hmem h1 ▸ hmem' g2) (by decide)
    · exact absurd (hmem h2 ▸ hmem' g0) (by decide)
    · exact absurd (hmem h2 ▸ hmem' g1) (by decide)
    · exact hdisj 2 h2 g2
  · -- permutation with range 150
    refine Multiset.coe_eq_coe.mp ?_
    have hco : ∀ (a b : List ℕ), ((a ++ b : List ℕ) : Multiset ℕ) = ↑a + ↑b :=
      fun a b => rfl
    rw [stratTestIdx, stratTrainIdx]
    simp only [hco]
    have hrejoin : ∀ c, (((classIdx σ c).take testQuota : List ℕ) : Multiset ℕ) +
        ↑((classIdx σ c).drop testQuota) = ↑(classIdx σ c) := by
      intro c
      rw [← hco, List.take_append_drop]
    have hfinal : (↑(classIdx σ 0) + (↑(classIdx σ 1) + ↑(classIdx σ 2)) : Multiset ℕ) =
        ↑(List.range 150) := by
      rw [← hco, ← hco]
      exact Multiset.coe_eq_coe.mpr ((classIdx_partition σ hσ).trans hσ)
    rw [← hfinal, ← hrejoin 0, ← hrejoin 1, ← hrejoin 2]
    abel
  · -- per-class counts
    intro c hc
    have hcases : c = 0 ∨ c = 1 ∨ c = 2 := by omega
    have hcount : ∀ c', c' < 3 →
        (stratTestIdx σ).countP (fun i => irisLabels.getD i 3 == c') =
          ((classIdx σ c').take testQuota).length ∧
        (stratTrainIdx σ).countP (fun i => irisLabels.getD i 3 == c') =
          ((classIdx σ c').drop testQuota).length := by
      intro c' hc'
      constructor
      · rw [stratTestIdx, List.countP_append, List.countP_append]
        rcases (by omega : c' = 0 ∨ c' = 1 ∨ c' = 2) with rfl | rfl | rfl
        · rw [countP_subset_self (List.take_subset _ _),
            countP_subset_ne (by decide) (List.take_subset testQuota (classIdx σ 1)),
            countP_subset_ne (by decide) (List.take_subset testQuota (classIdx σ 2))]
          omega
        · rw [countP_subset_self (List.take_subset _ _),
            countP_subset_ne (by decide) (List.take_subset testQuota (classIdx σ 0)),
            countP_subset_ne (by decide) (List.take_subset testQuota (classIdx σ 2))]
          omega
        · rw [countP_subset_self (List.take_subset _ _),
            countP_subset_ne (by decide) (List.take_subset testQuota (classIdx σ 0)),
            countP_subset_ne (by decide) (List.take_subset testQuota (classIdx σ 1))]
          omega
      · rw [stratTrainIdx, List.countP_append, List.countP_append]
        rcases (by omega : c' = 0 ∨ c' = 1 ∨ c' = 2) with rfl | rfl | rfl
        · rw [countP_subset_self (List.drop_subset _ _),
            countP_subset_ne (by decide) (List.drop_subset testQuota (classIdx σ 1)),
            countP_subset_ne (by decide) (List.drop_subset testQuota (classIdx σ 2))]
          omega
        · rw [countP_subset_self (List.drop_subset _ _),
            countP_subset_ne (by decide) (List.drop_subset testQuota (classIdx σ 0)),
            countP_subset_ne (by decide) (List.drop_subset testQuota (classIdx σ 2))]
          omega
        · rw [countP_subset_self (List.drop_subset _ _),
            countP_subset_ne (by decide) (List.drop_subset testQuota (classIdx σ 0)),
            countP_subset_ne (by decide) (List.drop_subset testQuota (classIdx σ 1))]
          omega
    obtain ⟨ht, hd⟩ := hcount c hc
    rcases hcases with rfl | rfl | rfl
    · exact ⟨by rw [ht, htake 0 hl0], by rw [hd, hdrop 0 hl0]⟩
    · exact ⟨by rw [ht, htake 1 hl1], by rw [hd, hdrop 1 hl1]⟩
    · exact ⟨by rw [ht, htake 2 hl2], by rw [hd, hdrop 2 hl2]⟩

/-- Witness for `stratified_split_properties` at the identity shuffle. -/
theorem stratified_split_properties_witness :
    (List.range 150).Perm (List.range 150) ∧
    (stratTestIdx (List.range 150)).length = 30 ∧
    (stratTestIdx (List.range 150)).countP
      (fun i => irisLabels.getD i 3 == 0) = 10 :=
  ⟨List.Perm.refl _,
    (stratified_split_properties (List.range 150) (List.Perm.refl _)).1,
    ((stratified_split_properties (List.range 150)
      (List.Perm.refl _)).2.2.2.2 0 (by decide)).1⟩

end MLNotebooks
